import Mathlib

/-!
Verification of the audio playback-and-analysis core of
`rust-audio-visualization` against its specification.

The Rust sources are embedded shallowly:

* `AudioProcessor` / `AudioAnalysisData`  — `src/audio/processor.rs`
* `SampleBroadcaster` (the spec's SampleTap) — `src/audio/sample_broadcaster.rs`
* `AudioManager` (the spec's PlaybackEngine) — `src/audio/manager.rs`
* the analysis worker's loop body — the closure inside
  `AudioManager::load_and_play_file` in `src/audio/manager.rs`

Conventions of the embedding:

* `f32` samples are modelled as `ℚ`.  The source computes
  `rms_amplitude = sqrt(rms_sum_sq / N)` and each magnitude as
  `norm(c) / N = sqrt(re² + im²) / N`; since square roots leave `ℚ`, the
  record stores the squares (`rms_sq`, `freq_magnitudes_sq`) and theorems
  about the square-rooted quantities apply `Real.sqrt` to them.
* the `rustfft` library is an external dependency, not repository code:
  its transform is a parameter `fftImpl` taking the input buffer and the
  scratch buffer to their states after the call.  (`process_with_scratch`
  transforms the first slice in place and may clobber the scratch; both
  keep their lengths, which is all any claim needs.)
* the Hann window values involve `cos`, hence are transcendental; the
  window vector is a parameter of `AudioProcessor.new`, and every theorem
  holds for an arbitrary window, which subsumes the Hann one.
-/

/-- One chunk of derived audio data (`AudioAnalysisData` in
`src/audio/processor.rs`).  `rms_sq` is the square of the code's
`rms_amplitude`; `freq_magnitudes_sq` holds the squares of the code's
`frequency_magnitudes` entries. -/
structure AudioAnalysisData where
  rms_sq : ℚ
  peak_amplitude : ℚ
  freq_magnitudes_sq : List ℚ
  fft_size : ℕ
deriving DecidableEq

/-- State of `AudioProcessor` (`src/audio/processor.rs`).  The FFT planner
is stateless for our purposes and omitted. -/
structure AudioProcessor where
  fft_size : ℕ
  window : List ℚ
  fft_input_buffer : List (ℚ × ℚ)
  fft_output_buffer : List (ℚ × ℚ)
  sample_buffer : List ℚ
deriving DecidableEq

/-- `AudioProcessor::new(fft_size)`.  The code fills `window` with
`hann_window(fft_size)` (length `fft_size`); the window values are taken
as a parameter here (see the header comment). -/
def AudioProcessor.new (fft_size : ℕ) (window : List ℚ) : AudioProcessor :=
  { fft_size := fft_size
    window := window
    fft_input_buffer := List.replicate fft_size ((0 : ℚ), (0 : ℚ))
    fft_output_buffer := List.replicate fft_size ((0 : ℚ), (0 : ℚ))
    sample_buffer := [] }

/-- Model of the external `rustfft` call
`fft.process_with_scratch(&mut fft_input_buffer, &mut fft_output_buffer)`:
takes (input, scratch) to their contents after the call. -/
abbrev FftImpl := List (ℚ × ℚ) → List (ℚ × ℚ) → List (ℚ × ℚ) × List (ℚ × ℚ)

/-- The identity model of the library transform (used to instantiate
theorems at concrete inputs; any length-preserving function works). -/
def idFft : FftImpl := fun a b => (a, b)

/-- `AudioProcessor::process_samples` (`src/audio/processor.rs` lines
57-109).  Appends `new_samples` to `sample_buffer`; if at least
`fft_size` samples are buffered, takes the first `fft_size` of them,
computes peak and RMS over those raw samples, builds the windowed FFT
input, runs the transform, reads `fft_size / 2 + 1` magnitudes from the
(post-call) output buffer, drains the consumed samples and returns one
record; otherwise buffers and returns `none`.  The code indexes
`window[i]` for `i < fft_size`, i.e. assumes the window has length
`fft_size`; `zipWith` matches it under that assumption. -/
def AudioProcessor.process_samples (p : AudioProcessor) (fftImpl : FftImpl)
    (new_samples : List ℚ) : AudioProcessor × Option AudioAnalysisData :=
  let buf := p.sample_buffer ++ new_samples
  if p.fft_size ≤ buf.length then
    let raw := buf.take p.fft_size
    let peak_amplitude := raw.foldl (fun m s => if m < |s| then |s| else m) 0
    let rms_sum_sq := (raw.map (fun s => s * s)).sum
    let windowed := List.zipWith (fun s w => (s * w, (0 : ℚ))) raw p.window
    let res := fftImpl windowed p.fft_output_buffer
    let num_freq_bins := p.fft_size / 2 + 1
    let freq := (res.2.take num_freq_bins).map
      (fun c => (c.1 * c.1 + c.2 * c.2) / ((p.fft_size : ℚ) * (p.fft_size : ℚ)))
    ({ p with
        sample_buffer := buf.drop p.fft_size
        fft_input_buffer := res.1
        fft_output_buffer := res.2 },
      some { rms_sq := rms_sum_sq / (p.fft_size : ℚ)
             peak_amplitude := peak_amplitude
             freq_magnitudes_sq := freq
             fft_size := p.fft_size })
  else
    ({ p with sample_buffer := buf }, none)

/-- Feeding a list of chunks through the processor in order, collecting
the records produced (models successive worker iterations). -/
def AudioProcessor.runChunks (p : AudioProcessor) (fftImpl : FftImpl) :
    List (List ℚ) → AudioProcessor × List AudioAnalysisData
  | [] => (p, [])
  | c :: cs =>
    let r := p.process_samples fftImpl c
    let rest := r.1.runChunks fftImpl cs
    (rest.1, r.2.toList ++ rest.2)

/-- The finite decoded sample sequence together with the metadata the
`rodio::Source` trait exposes (the capability the core consumes). -/
structure AudioSource where
  samples : List ℚ
  source_channels : ℕ
  source_sample_rate : ℕ
  source_total_duration : Option ℕ
  source_current_frame_len : Option ℕ
deriving DecidableEq

/-- Result of one `try_send` on the bounded sample-chunk channel:
`Ok`, `TrySendError::Full`, or `TrySendError::Disconnected`.  In
`SampleBroadcaster::next` all three fall through to the same state
change (log only), which is exactly what claim C1 is about. -/
inductive SendOutcome
  | ok
  | full
  | disconnected
deriving DecidableEq

/-- State of `SampleBroadcaster` (`src/audio/sample_broadcaster.rs`).
`capacity` is the `buffer_capacity` handed to `new` (the Vec's target
capacity; `next` compares `buffer.len()` against it).  The channel sender
itself is modelled by the per-call `SendOutcome` oracle. -/
structure SampleBroadcaster where
  source : AudioSource
  buffer : List ℚ
  capacity : ℕ
  stored_sample_rate : ℕ
deriving DecidableEq

/-- `SampleBroadcaster::new(source, sample_chunk_sender, buffer_capacity)`. -/
def SampleBroadcaster.new (source : AudioSource) (buffer_capacity : ℕ) :
    SampleBroadcaster :=
  { source := source
    buffer := []
    capacity := buffer_capacity
    stored_sample_rate := source.source_sample_rate }

/-- `Source::current_frame_len` for `SampleBroadcaster`: delegates. -/
def SampleBroadcaster.current_frame_len (b : SampleBroadcaster) : Option ℕ :=
  b.source.source_current_frame_len

/-- `Source::channels` for `SampleBroadcaster`: delegates. -/
def SampleBroadcaster.channels (b : SampleBroadcaster) : ℕ :=
  b.source.source_channels

/-- `Source::sample_rate` for `SampleBroadcaster`: delegates. -/
def SampleBroadcaster.sample_rate (b : SampleBroadcaster) : ℕ :=
  b.source.source_sample_rate

/-- `Source::total_duration` for `SampleBroadcaster`: delegates. -/
def SampleBroadcaster.total_duration (b : SampleBroadcaster) : Option ℕ :=
  b.source.source_total_duration

/-- `Iterator::next` for `SampleBroadcaster`
(`src/audio/sample_broadcaster.rs` lines 75-122).  On `Some(sample)`:
push onto the buffer; if the buffer reached capacity, `try_send` a clone
(`outcome` is the channel's answer — all three answers only log) and
clear the buffer; in every case yield the sample unchanged.  On `None`:
blocking-send any partial chunk (outcome again only logged), clear the
buffer, yield `None`. -/
def SampleBroadcaster.next (b : SampleBroadcaster) (outcome : SendOutcome) :
    SampleBroadcaster × Option ℚ :=
  match b.source.samples with
  | sample :: rest =>
    let buffer := b.buffer ++ [sample]
    let b' := { b with source := { b.source with samples := rest } }
    if buffer.length = b.capacity then
      match outcome with
      | SendOutcome.ok => ({ b' with buffer := [] }, some sample)
      | SendOutcome.full => ({ b' with buffer := [] }, some sample)
      | SendOutcome.disconnected => ({ b' with buffer := [] }, some sample)
    else
      ({ b' with buffer := buffer }, some sample)
  | [] =>
    ({ b with buffer := [] }, none)

/-- The playback path (rodio's sink) pulling samples from the tap one by
one until `next` yields `none`; `oracle k` is the channel's answer to the
send attempted (if any) on the `k`-th pull, and `fuel` bounds the number
of pulls. -/
def SampleBroadcaster.pullAll (oracle : ℕ → SendOutcome) :
    ℕ → ℕ → SampleBroadcaster → List ℚ
  | 0, _, _ => []
  | fuel + 1, k, b =>
    match b.next (oracle k) with
    | (b', some s) => s :: SampleBroadcaster.pullAll oracle fuel (k + 1) b'
    | (_, none) => []

/-- `samples.iter().step_by(c)`: the elements at indices `0, c, 2c, …`
(for `c ≥ 1`), as used by the worker's first-channel downmix. -/
def stepBy (c : ℕ) : List ℚ → List ℚ
  | [] => []
  | x :: xs => x :: stepBy c (xs.drop (c - 1))
termination_by l => l.length
decreasing_by
  simp only [List.length_drop, List.length_cons]
  omega

/-- One iteration body of the analysis worker after a chunk was received
(`src/audio/manager.rs` lines 133-152): channel count 1 feeds the chunk
through unchanged; more than one channel and a nonempty chunk feeds every
`source_channels`-th sample starting at index 0; otherwise (zero channels
or an empty multi-channel chunk) nothing is processed. -/
def workerStep (fftImpl : FftImpl) (source_channels : ℕ)
    (processor : AudioProcessor) (samples : List ℚ) :
    AudioProcessor × Option AudioAnalysisData :=
  if source_channels = 1 then
    processor.process_samples fftImpl samples
  else if 1 < source_channels ∧ samples ≠ [] then
    processor.process_samples fftImpl (stepBy source_channels samples)
  else
    (processor, none)

/-- `PlaybackState` (`src/audio/manager.rs`). -/
inductive PlaybackState
  | Idle
  | Loaded
  | Playing
  | Paused
deriving DecidableEq

/-- What the engine observes of and commands on a `rodio::Sink`:
whether it is paused, whether its queue is empty (`sink.empty()`), and
its volume. -/
structure Sink where
  paused : Bool
  queue_empty : Bool
  volume : ℚ
deriving DecidableEq

/-- State of `AudioManager` (`src/audio/manager.rs`).  The output stream
and stream handle never change after construction and are omitted; the
thread handle and stop sender are modelled by their presence. -/
structure AudioManager where
  sink : Option Sink
  processing_thread_handle : Option Unit
  stop_signal_sender : Option Unit
  current_file_path : Option String
  state : PlaybackState
  current_volume : ℚ
deriving DecidableEq

/-- `AudioManager::stop_playback_and_processing` (`src/audio/manager.rs`
lines 204-242): `take` and stop the sink, `take` the stop sender and send
on it, `take` the thread handle and join it, set state to `Idle`.  The
sends and the join are external effects; on the engine's fields the net
effect is clearing the three `Option`s and resetting the state. -/
def AudioManager.stop_playback_and_processing (m : AudioManager) : AudioManager :=
  { m with
      sink := none
      stop_signal_sender := none
      processing_thread_handle := none
      state := PlaybackState.Idle }

/-- `AudioManager::pause_playback` (`src/audio/manager.rs` lines 245-255). -/
def AudioManager.pause_playback (m : AudioManager) : AudioManager :=
  if m.state = PlaybackState.Playing then
    match m.sink with
    | some sink =>
      if sink.paused then m
      else { m with sink := some { sink with paused := true },
                    state := PlaybackState.Paused }
    | none => m
  else m

/-- `AudioManager::resume_playback` (`src/audio/manager.rs` lines
260-270): only the `Paused` state with a currently paused sink does
anything. -/
def AudioManager.resume_playback (m : AudioManager) : AudioManager :=
  if m.state = PlaybackState.Paused then
    match m.sink with
    | some sink =>
      if sink.paused then
        { m with sink := some { sink with paused := false },
                 state := PlaybackState.Playing }
      else m
    | none => m
  else m

/-- `AudioManager::check_and_update_finished_state` (`src/audio/manager.rs`
lines 284-327).  With a sink: if it is empty while `Playing`, the state
becomes `Loaded` (the handle and stop sender are taken and immediately
put back, and the extra stop-signal send is an external effect, so no
other field changes).  Without a sink: a `Playing` or `Paused` state is
reset to `Idle`. -/
def AudioManager.check_and_update_finished_state (m : AudioManager) : AudioManager :=
  match m.sink with
  | some sink =>
    if sink.queue_empty ∧ m.state = PlaybackState.Playing then
      { m with state := PlaybackState.Loaded }
    else m
  | none =>
    if m.state = PlaybackState.Playing ∨ m.state = PlaybackState.Paused then
      { m with state := PlaybackState.Idle }
    else m

/-- Errors `load_and_play_file` can surface, named after the spec's
taxonomy; the code returns the corresponding `Err(String)`s. -/
inductive LoadError
  | InvalidInput
  | IoError
  | DecodeError
  | ThreadSpawnError
  | DeviceError
deriving DecidableEq

/-- Outcomes of the external calls made during `load_and_play_file`:
`File::open`, `Decoder::new`, `thread::Builder::spawn`, `Sink::try_new`. -/
structure LoadEnv where
  open_ok : Bool
  decode_ok : Bool
  spawn_ok : Bool
  sink_ok : Bool
deriving DecidableEq

/-- `AudioManager::load_and_play_file` (`src/audio/manager.rs` lines
71-201), with the external-call outcomes supplied by `env`.  Mirrors the
code's order: the `trim().is_empty()` check returns *before* the
teardown call; then teardown, open, decode; `current_file_path` is set
after a successful decode; the stop sender is stored before the spawn;
the thread handle after it; sink creation, volume, play, state
`Playing`. -/
def AudioManager.load_and_play_file (m : AudioManager) (file_path : String)
    (env : LoadEnv) : AudioManager × Option LoadError :=
  -- `file_path.trim().is_empty()` holds exactly when every character of
  -- the path is whitespace (including the empty path); `String.trim`
  -- itself does not reduce in the kernel, so the condition is embedded
  -- through that characterisation.
  if file_path.data.all Char.isWhitespace then
    (m, some LoadError.InvalidInput)
  else
    let m1 := m.stop_playback_and_processing
    if env.open_ok = false then (m1, some LoadError.IoError)
    else if env.decode_ok = false then (m1, some LoadError.DecodeError)
    else
      let m2 := { m1 with current_file_path := some file_path }
      let m3 := { m2 with stop_signal_sender := some () }
      if env.spawn_ok = false then (m3, some LoadError.ThreadSpawnError)
      else
        let m4 := { m3 with processing_thread_handle := some () }
        if env.sink_ok = false then (m4, some LoadError.DeviceError)
        else
          ({ m4 with
              sink := some { paused := false, queue_empty := false,
                             volume := m4.current_volume }
              state := PlaybackState.Playing },
            none)

/-! ### Concrete engine states used to instantiate the theorems -/

/-- An engine in the middle of a playing session. -/
def mgrPlaying : AudioManager :=
  { sink := some { paused := false, queue_empty := false, volume := 1 }
    processing_thread_handle := some ()
    stop_signal_sender := some ()
    current_file_path := some "a.mp3"
    state := PlaybackState.Playing
    current_volume := 1 }

/-- An engine whose sink has drained: `Loaded`, sink still present with
remaining buffered audio flag cleared (queue is empty). -/
def mgrLoaded : AudioManager :=
  { sink := some { paused := false, queue_empty := false, volume := 1 }
    processing_thread_handle := some ()
    stop_signal_sender := some ()
    current_file_path := some "a.mp3"
    state := PlaybackState.Loaded
    current_volume := 1 }

/-- A paused engine (paused sink held). -/
def mgrPaused : AudioManager :=
  { sink := some { paused := true, queue_empty := false, volume := 1 }
    processing_thread_handle := some ()
    stop_signal_sender := some ()
    current_file_path := some "a.mp3"
    state := PlaybackState.Paused
    current_volume := 1 }

/-! ### C8 — teardown is idempotent and resets the session -/

/-- C8: `stop_playback_and_processing` is idempotent — for every engine
state, calling it twice yields the same engine state as calling it once —
and after any call the state is `Idle` with no sink, no worker-thread
handle and no stop-signal sender held. -/
theorem c8_stop_idempotent (m : AudioManager) :
    m.stop_playback_and_processing.stop_playback_and_processing =
      m.stop_playback_and_processing ∧
    m.stop_playback_and_processing.state = PlaybackState.Idle ∧
    m.stop_playback_and_processing.sink = none ∧
    m.stop_playback_and_processing.processing_thread_handle = none ∧
    m.stop_playback_and_processing.stop_signal_sender = none := by
  simp [AudioManager.stop_playback_and_processing]

/-! ### C7 — natural end of stream is detected while Playing -/

/-- C7: with a sink present, `check_and_update_finished_state` moves the
state to `Loaded` exactly when the engine is `Playing` and the sink
reports no remaining queued audio; if the state is not `Playing` or the
sink still holds queued audio, the engine is left unchanged. -/
theorem c7_finished_transition (m : AudioManager) (s : Sink)
    (h : m.sink = some s) :
    (m.state = PlaybackState.Playing → s.queue_empty = true →
      m.check_and_update_finished_state.state = PlaybackState.Loaded) ∧
    (m.state ≠ PlaybackState.Playing ∨ s.queue_empty = false →
      m.check_and_update_finished_state = m) := by
  constructor
  · intro hp hq
    simp [AudioManager.check_and_update_finished_state, h, hp, hq]
  · intro hne
    rcases hne with hne | hq
    · simp only [AudioManager.check_and_update_finished_state, h]
      rw [if_neg]
      simp [hne]
    · simp [AudioManager.check_and_update_finished_state, h, hq]

/-- Witness for C7: a playing engine whose sink reports empty is moved to
`Loaded`, and the same engine with a non-empty sink is untouched. -/
theorem c7_finished_transition_witness :
    ({ mgrPlaying with
        sink := some { paused := false, queue_empty := true, volume := 1 }
      }.check_and_update_finished_state.state = PlaybackState.Loaded) ∧
    mgrPlaying.check_and_update_finished_state = mgrPlaying := by
  constructor
  · exact (c7_finished_transition _
      { paused := false, queue_empty := true, volume := 1 } rfl).1 rfl rfl
  · exact (c7_finished_transition mgrPlaying
      { paused := false, queue_empty := false, volume := 1 } rfl).2 (Or.inr rfl)

/-! ### C10 — defensive reset when the sink is gone -/

/-- C10: after `check_and_update_finished_state` on an engine holding no
sink, the state is neither `Playing` nor `Paused`; an engine observed
`Playing` or `Paused` without a sink is reset to `Idle`. -/
theorem c10_no_sink_reset (m : AudioManager) (h : m.sink = none) :
    m.check_and_update_finished_state.state ≠ PlaybackState.Playing ∧
    m.check_and_update_finished_state.state ≠ PlaybackState.Paused ∧
    ((m.state = PlaybackState.Playing ∨ m.state = PlaybackState.Paused) →
      m.check_and_update_finished_state.state = PlaybackState.Idle) := by
  cases hs : m.state <;>
    simp [AudioManager.check_and_update_finished_state, h, hs]

/-- Witness for C10: a `Paused` engine whose sink has vanished is reset
to `Idle` by the poll. -/
theorem c10_no_sink_reset_witness :
    { mgrPaused with sink := none }.check_and_update_finished_state.state ≠
        PlaybackState.Playing ∧
      { mgrPaused with sink := none }.check_and_update_finished_state.state ≠
        PlaybackState.Paused ∧
      (({ mgrPaused with sink := none }.state = PlaybackState.Playing ∨
          { mgrPaused with sink := none }.state = PlaybackState.Paused) →
        { mgrPaused with sink := none }.check_and_update_finished_state.state =
          PlaybackState.Idle) :=
  c10_no_sink_reset { mgrPaused with sink := none } rfl

/-! ### C3 — resume_playback handles only the Paused case -/

/-- Counterexample to C3: an engine in state `Loaded` whose sink still
holds remaining buffered audio (queue not empty) is *not* resumed —
`resume_playback` leaves it entirely unchanged and the state does not
become `Playing`, contradicting the claimed `Loaded --resume--> Playing`
transition. -/
theorem c3_resume_counterexample :
    mgrLoaded.resume_playback = mgrLoaded ∧
    mgrLoaded.resume_playback.state ≠ PlaybackState.Playing := by
  constructor
  · rfl
  · intro h
    exact absurd h (by decide)

/-- C3 (amended): `resume_playback` is a no-op unless the state is
`Paused` and a currently paused sink is held; in that case it resumes the
sink and sets state = `Playing`.  In particular the `Loaded` state is
never resumed by this operation. -/
theorem c3_resume_amended (m : AudioManager) :
    (m.state ≠ PlaybackState.Paused → m.resume_playback = m) ∧
    (∀ s : Sink, m.state = PlaybackState.Paused → m.sink = some s →
      s.paused = true →
      m.resume_playback =
        { m with sink := some { s with paused := false },
                 state := PlaybackState.Playing }) ∧
    (∀ s : Sink, m.state = PlaybackState.Paused → m.sink = some s →
      s.paused = false → m.resume_playback = m) ∧
    (m.state = PlaybackState.Paused → m.sink = none → m.resume_playback = m) := by
  refine ⟨fun h => ?_, fun s hp hs hpause => ?_, fun s hp hs hpause => ?_,
    fun hp hs => ?_⟩
  · simp [AudioManager.resume_playback, h]
  · simp [AudioManager.resume_playback, hp, hs, hpause]
  · simp [AudioManager.resume_playback, hp, hs, hpause]
  · simp [AudioManager.resume_playback, hp, hs]

/-- Witness for the amended C3: a paused engine is resumed to `Playing`
with its sink unpaused, and a `Loaded` engine is left alone. -/
theorem c3_resume_amended_witness :
    mgrPaused.resume_playback =
      { mgrPaused with
          sink := some { paused := false, queue_empty := false, volume := 1 }
          state := PlaybackState.Playing } ∧
    mgrLoaded.resume_playback = mgrLoaded := by
  constructor
  · exact (c3_resume_amended mgrPaused).2.1
      { paused := true, queue_empty := false, volume := 1 } rfl rfl rfl
  · exact (c3_resume_amended mgrLoaded).1 (by decide)

/-! ### C5 — failure behaviour of load_and_play_file -/

/-- Counterexample to C5: the empty-path check runs *before* teardown, so
a call with an all-whitespace path made while a session is playing fails
with `InvalidInput` but leaves the engine exactly as it was — still a
playing session — contrary to the claim that every failing call leaves
the post-teardown (never playing) state. -/
theorem c5_load_counterexample :
    mgrPlaying.load_and_play_file "  "
        { open_ok := true, decode_ok := true, spawn_ok := true, sink_ok := true } =
      (mgrPlaying, some LoadError.InvalidInput) ∧
    (mgrPlaying.load_and_play_file "  "
        { open_ok := true, decode_ok := true, spawn_ok := true, sink_ok := true }
      ).1.state = PlaybackState.Playing := by
  constructor
  · rfl
  · rfl

/-- C5 (amended): `load_and_play_file` fails with `InvalidInput` for
every path that is empty or consists only of whitespace, and this check
happens before any session teardown — the engine is returned completely
unchanged, including a still-active playing session.  For every *other*
failing call (file-open, decode, thread-spawn or sink-creation failure)
the prior session has been torn down and the state is `Idle`, never
`Playing`. -/
theorem c5_load_amended (m : AudioManager) (path : String) (env : LoadEnv) :
    (path.data.all Char.isWhitespace = true →
      m.load_and_play_file path env = (m, some LoadError.InvalidInput)) ∧
    (path.data.all Char.isWhitespace = false → ∀ err : LoadError,
      (m.load_and_play_file path env).2 = some err →
        (m.load_and_play_file path env).1.state = PlaybackState.Idle ∧
        (m.load_and_play_file path env).1.state ≠ PlaybackState.Playing ∧
        (m.load_and_play_file path env).1.sink = none) := by
  constructor
  · intro h
    simp [AudioManager.load_and_play_file, h]
  · intro h err herr
    simp only [AudioManager.load_and_play_file, h, if_neg] at herr ⊢
    rcases ho : env.open_ok with _ | _ <;>
      rcases hd : env.decode_ok with _ | _ <;>
        rcases hs : env.spawn_ok with _ | _ <;>
          rcases hk : env.sink_ok with _ | _ <;>
            simp_all [AudioManager.stop_playback_and_processing]

/-! ### C4 — first-channel downmix in the worker loop -/

/-- `step_by c` (for `c ≥ 1`) selects exactly the elements at the indices
`0, c, 2c, …` of the original list. -/
theorem stepBy_getElem? (c : ℕ) (hc : 1 ≤ c) :
    ∀ (xs : List ℚ) (i : ℕ), (stepBy c xs)[i]? = xs[c * i]? := by
  intro xs
  induction xs using stepBy.induct c with
  | case1 => intro i; simp [stepBy]
  | case2 x tail ih =>
    intro i
    rw [stepBy]
    cases i with
    | zero => simp
    | succ j =>
      have hidx : c * (j + 1) = (c - 1 + c * j) + 1 := by
        cases c with
        | zero => omega
        | succ c0 => ring_nf; omega
      rw [hidx]
      simp only [List.getElem?_cons_succ]
      rw [ih j, List.getElem?_drop]

/-- C4: for every chunk the worker receives, a single-channel source's
chunk is fed to the analyzer unchanged, while a multi-channel source's
nonempty chunk is first reduced to the samples at indices
`0, C, 2C, …` (the first channel of the interleaved data); a two-channel
chunk `[L0, R0, L1, R1, L2, R2]` reduces to `[L0, L1, L2]`. -/
theorem c4_worker_downmix (fftImpl : FftImpl) (source_channels : ℕ)
    (processor : AudioProcessor) (chunk : List ℚ) :
    (source_channels = 1 →
      workerStep fftImpl source_channels processor chunk =
        processor.process_samples fftImpl chunk) ∧
    (1 < source_channels → chunk ≠ [] →
      workerStep fftImpl source_channels processor chunk =
        processor.process_samples fftImpl (stepBy source_channels chunk) ∧
      ∀ i, (stepBy source_channels chunk)[i]? = chunk[source_channels * i]?) ∧
    (∀ L0 R0 L1 R1 L2 R2 : ℚ,
      stepBy 2 [L0, R0, L1, R1, L2, R2] = [L0, L1, L2]) := by
  refine ⟨fun h1 => ?_, fun hgt hne => ⟨?_, ?_⟩, fun L0 R0 L1 R1 L2 R2 => ?_⟩
  · simp [workerStep, h1]
  · have : source_channels ≠ 1 := by omega
    simp [workerStep, this, hgt, hne]
  · exact stepBy_getElem? source_channels (by omega) chunk
  · simp [stepBy]

/-- Witness for C4: a stereo (two-channel) chunk is downmixed to its
first channel before analysis, and the downmix picks exactly the
even-indexed samples. -/
theorem c4_worker_downmix_witness :
    (workerStep idFft 2 (AudioProcessor.new 4 (List.replicate 4 1))
        [5, 6, 7, 8] =
      (AudioProcessor.new 4 (List.replicate 4 1)).process_samples idFft
        (stepBy 2 [5, 6, 7, 8]) ∧
      ∀ i, (stepBy 2 [5, 6, 7, 8])[i]? = [(5 : ℚ), 6, 7, 8][2 * i]?) ∧
    stepBy 2 [(10 : ℚ), 11, 20, 21, 30, 31] = [10, 20, 30] := by
  constructor
  · exact (c4_worker_downmix idFft 2 (AudioProcessor.new 4 (List.replicate 4 1))
      [5, 6, 7, 8]).2.1 (by omega) (by decide)
  · exact (c4_worker_downmix idFft 2 (AudioProcessor.new 4 (List.replicate 4 1))
      [5, 6, 7, 8]).2.2 10 11 20 21 30 31

/-! ### C1 — the tap is transparent to playback -/

/-- `next` on a non-exhausted source always yields the head sample
unchanged and advances the source, whatever the channel answered. -/
theorem SampleBroadcaster.next_yield (b : SampleBroadcaster) (o : SendOutcome)
    (s : ℚ) (rest : List ℚ) (h : b.source.samples = s :: rest) :
    (b.next o).2 = some s ∧ (b.next o).1.source.samples = rest := by
  cases o <;> simp only [SampleBroadcaster.next, h] <;> split <;> simp

/-- Pulling as many samples as the source holds returns exactly the
source's samples, in order, for every oracle of channel answers. -/
theorem SampleBroadcaster.pullAll_eq_source (oracle : ℕ → SendOutcome) :
    ∀ (samples : List ℚ) (b : SampleBroadcaster) (k : ℕ),
      b.source.samples = samples →
      SampleBroadcaster.pullAll oracle samples.length k b = samples := by
  intro samples
  induction samples with
  | nil => intro b k h; rfl
  | cons s rest ih =>
    intro b k h
    obtain ⟨h2, h1⟩ := SampleBroadcaster.next_yield b (oracle k) s rest h
    simp only [List.length_cons, SampleBroadcaster.pullAll]
    rcases hn : b.next (oracle k) with ⟨b', r⟩
    rw [hn] at h1 h2
    simp only at h1 h2
    subst h2
    simpa using ih b' (k + 1) h1

/-- C1: for every wrapped source and every behaviour of the chunk channel
(per-pull answers `ok`, `full` or `disconnected`), the sequence of
samples the tap yields to the playback caller is exactly the wrapped
source's sample sequence, unchanged and in order, and the tap reports the
wrapped source's channel count, sample rate and total duration. -/
theorem c1_tap_transparent (src : AudioSource) (cap : ℕ)
    (oracle : ℕ → SendOutcome) :
    SampleBroadcaster.pullAll oracle src.samples.length 0
        (SampleBroadcaster.new src cap) = src.samples ∧
    (SampleBroadcaster.new src cap).channels = src.source_channels ∧
    (SampleBroadcaster.new src cap).sample_rate = src.source_sample_rate ∧
    (SampleBroadcaster.new src cap).total_duration = src.source_total_duration :=
  ⟨SampleBroadcaster.pullAll_eq_source oracle src.samples _ 0 rfl, rfl, rfl, rfl⟩

/-! ### Processor extraction lemmas -/

/-- When at least `fft_size` samples are available, `process_samples`
takes the specified branch: full window consumed, one record returned. -/
theorem AudioProcessor.process_samples_extract (p : AudioProcessor)
    (f : FftImpl) (ns : List ℚ)
    (hc : p.fft_size ≤ (p.sample_buffer ++ ns).length) :
    p.process_samples f ns =
      ({ p with
          sample_buffer := (p.sample_buffer ++ ns).drop p.fft_size
          fft_input_buffer :=
            (f (List.zipWith (fun s w => (s * w, (0 : ℚ)))
                ((p.sample_buffer ++ ns).take p.fft_size) p.window)
              p.fft_output_buffer).1
          fft_output_buffer :=
            (f (List.zipWith (fun s w => (s * w, (0 : ℚ)))
                ((p.sample_buffer ++ ns).take p.fft_size) p.window)
              p.fft_output_buffer).2 },
        some { rms_sq := (((p.sample_buffer ++ ns).take p.fft_size).map
                  (fun s => s * s)).sum / (p.fft_size : ℚ)
               peak_amplitude := ((p.sample_buffer ++ ns).take p.fft_size).foldl
                  (fun m s => if m < |s| then |s| else m) 0
               freq_magnitudes_sq :=
                 ((f (List.zipWith (fun s w => (s * w, (0 : ℚ)))
                      ((p.sample_buffer ++ ns).take p.fft_size) p.window)
                    p.fft_output_buffer).2.take (p.fft_size / 2 + 1)).map
                   (fun c => (c.1 * c.1 + c.2 * c.2) /
                     ((p.fft_size : ℚ) * (p.fft_size : ℚ)))
               fft_size := p.fft_size }) := by
  simp only [AudioProcessor.process_samples, if_pos hc]

/-- With fewer than `fft_size` samples available, `process_samples` only
buffers and returns `none`. -/
theorem AudioProcessor.process_samples_buffering (p : AudioProcessor)
    (f : FftImpl) (ns : List ℚ)
    (hc : (p.sample_buffer ++ ns).length < p.fft_size) :
    p.process_samples f ns =
      ({ p with sample_buffer := p.sample_buffer ++ ns }, none) := by
  have hnc : ¬ p.fft_size ≤ (p.sample_buffer ++ ns).length := not_le.mpr hc
  simp only [AudioProcessor.process_samples, if_neg hnc]

/-- The peak fold of the code is the `max` fold. -/
theorem peak_foldl_eq_max_foldl (l : List ℚ) :
    ∀ m : ℚ, l.foldl (fun m s => if m < |s| then |s| else m) m =
      l.foldl (fun m s => max m |s|) m := by
  induction l with
  | nil => intro m; rfl
  | cons x xs ih =>
    intro m
    simp only [List.foldl_cons, ih]
    congr 1
    rcases lt_or_ge m |x| with h | h
    · simp [h, max_eq_right h.le]
    · simp [not_lt.mpr h, max_eq_left h]

/-- Every element of the list is bounded by its `max` fold, and so is the
start value. -/
theorem foldl_max_bounds (l : List ℚ) :
    ∀ m : ℚ, m ≤ l.foldl max m ∧ ∀ x ∈ l, x ≤ l.foldl max m := by
  induction l with
  | nil => intro m; simp
  | cons y ys ih =>
    intro m
    obtain ⟨h1, h2⟩ := ih (max m y)
    refine ⟨le_trans (le_max_left m y) h1, ?_⟩
    intro x hx
    rcases List.mem_cons.mp hx with rfl | hx
    · exact le_trans (le_max_right m x) h1
    · exact h2 x hx

/-- The `max` fold is attained in the list unless it equals the start
value. -/
theorem foldl_max_attained (l : List ℚ) :
    ∀ m : ℚ, l.foldl max m ∈ l ∨ l.foldl max m = m := by
  induction l with
  | nil => intro m; simp
  | cons y ys ih =>
    intro m
    rw [List.foldl_cons]
    rcases ih (max m y) with h | h
    · exact Or.inl (List.mem_cons_of_mem y h)
    · rcases max_choice m y with hm | hm
      · exact Or.inr (h.trans hm)
      · refine Or.inl ?_
        rw [h, hm]
        exact List.mem_cons_self y ys

/-! ### C6 — carry-over buffer length after an extraction -/

/-- Counterexample to C6: an analyzer of FFT size 4 with an empty carry
buffer fed 8 samples in one call performs a successful extraction, yet
the carry-over buffer holds 4 = N samples afterwards, not fewer. -/
theorem c6_carry_counterexample :
    ((AudioProcessor.new 4 (List.replicate 4 1)).process_samples idFft
        (List.replicate 8 1)).2.isSome = true ∧
    ¬ ((AudioProcessor.new 4 (List.replicate 4 1)).process_samples idFft
        (List.replicate 8 1)).1.sample_buffer.length < 4 := by
  constructor
  · decide
  · decide

/-- C6 (amended): a successful extraction leaves the carry-over buffer
strictly shorter than the FFT size provided the buffer held fewer than
`fft_size` samples before the call and the call supplied at most
`fft_size` new samples — which is what every chunk the worker feeds
satisfies (chunks have at most `SAMPLES_PER_CHUNK = fft_size` samples,
fewer after downmix). -/
theorem c6_carry_amended (p : AudioProcessor) (f : FftImpl) (ns : List ℚ)
    (hpre : p.sample_buffer.length < p.fft_size)
    (hns : ns.length ≤ p.fft_size)
    (hsome : (p.process_samples f ns).2.isSome = true) :
    (p.process_samples f ns).1.sample_buffer.length < p.fft_size := by
  by_cases hc : p.fft_size ≤ (p.sample_buffer ++ ns).length
  · rw [p.process_samples_extract f ns hc]
    simp only [List.length_drop, List.length_append]
    omega
  · rw [p.process_samples_buffering f ns (by omega)] at hsome
    simp at hsome

/-- Witness for the amended C6: FFT size 2, empty carry buffer, two new
samples — extraction succeeds and the buffer is left empty. -/
theorem c6_carry_amended_witness :
    ((AudioProcessor.new 2 [1, 1]).process_samples idFft
        [1, 2]).1.sample_buffer.length < 2 :=
  c6_carry_amended (AudioProcessor.new 2 [1, 1]) idFft [1, 2]
    (by decide) (by decide) (by decide)

/-! ### C2 — windowing cadence of process_samples -/

/-- While fewer than `fft_size` samples have accumulated in total, the
processor only concatenates the chunks into its carry buffer and emits no
record. -/
theorem AudioProcessor.runChunks_buffering (f : FftImpl) :
    ∀ (chunks : List (List ℚ)) (p : AudioProcessor),
      p.sample_buffer.length + (chunks.map List.length).sum < p.fft_size →
      p.runChunks f chunks =
        ({ p with sample_buffer := p.sample_buffer ++ chunks.flatten }, []) := by
  intro chunks
  induction chunks with
  | nil => intro p h; simp [AudioProcessor.runChunks]
  | cons c cs ih =>
    intro p h
    simp only [List.map_cons, List.sum_cons] at h
    simp only [AudioProcessor.runChunks]
    rw [p.process_samples_buffering f c (by simp; omega)]
    rw [ih _ (by simp; omega)]
    simp [List.append_assoc]

/-- C2: starting from an analyzer of FFT size `N` (with an empty carry
buffer), a call with exactly `N` samples returns exactly one record whose
magnitude list has length `N / 2 + 1`; calls with chunks whose cumulative
length stays below `N` all return nothing, and the call whose chunk
brings the cumulative total to `N` or beyond returns a record.  `f` is
the library FFT, which preserves the buffer length it transforms. -/
theorem c2_process_yield (N : ℕ) (window : List ℚ) (f : FftImpl)
    (samples : List ℚ) (chunks : List (List ℚ)) (c : List ℚ)
    (hN : 0 < N)
    (hf : ∀ a b, (f a b).2.length = b.length)
    (hs : samples.length = N)
    (hsum : (chunks.map List.length).sum < N)
    (hclen : c.length < N)
    (hreach : N ≤ (chunks.map List.length).sum + c.length) :
    (∃ rec : AudioAnalysisData,
      ((AudioProcessor.new N window).process_samples f samples).2 = some rec ∧
      rec.freq_magnitudes_sq.length = N / 2 + 1) ∧
    ((AudioProcessor.new N window).runChunks f chunks).2 = [] ∧
    (((AudioProcessor.new N window).runChunks f chunks).1.process_samples f
        c).2.isSome = true := by
  have hdiv : N / 2 < N := Nat.div_lt_self hN one_lt_two
  refine ⟨?_, ?_, ?_⟩
  · rw [(AudioProcessor.new N window).process_samples_extract f samples
      (by simp [AudioProcessor.new, hs])]
    refine ⟨_, rfl, ?_⟩
    simp only [List.length_map, List.length_take, hf, AudioProcessor.new,
      List.length_replicate]
    omega
  · rw [AudioProcessor.runChunks_buffering f chunks (AudioProcessor.new N window)
      (by simp [AudioProcessor.new]; omega)]
  · rw [AudioProcessor.runChunks_buffering f chunks (AudioProcessor.new N window)
      (by simp [AudioProcessor.new]; omega)]
    rw [AudioProcessor.process_samples_extract _ f c
      (by simp [AudioProcessor.new, List.length_flatten]; omega)]
    rfl

/-- Witness for C2: FFT size 2 — two samples at once yield one record
with `2 / 2 + 1 = 2` magnitudes; a one-sample chunk yields nothing until
a second one-sample chunk completes the window. -/
theorem c2_process_yield_witness :
    (∃ rec : AudioAnalysisData,
      ((AudioProcessor.new 2 [1, 1]).process_samples idFft [1, 2]).2 = some rec ∧
      rec.freq_magnitudes_sq.length = 2 / 2 + 1) ∧
    ((AudioProcessor.new 2 [1, 1]).runChunks idFft [[5]]).2 = [] ∧
    (((AudioProcessor.new 2 [1, 1]).runChunks idFft [[5]]).1.process_samples idFft
        [7]).2.isSome = true :=
  c2_process_yield 2 [1, 1] idFft [1, 2] [[5]] [7] (by decide) (fun a b => rfl)
    (by decide) (by decide) (by decide) (by decide)

/-! ### C9 — peak and RMS are computed over the raw window -/

/-- C9: whenever a record is produced (at least `fft_size` samples
available), its peak is the maximum absolute value over the `fft_size`
raw (unwindowed) samples of the window and its RMS is the square root of
their mean square; the window coefficients enter neither metric; an
all-zero sample window has RMS 0 and a constant-amplitude-`A` window has
RMS `A`. -/
theorem c9_peak_rms_raw (p : AudioProcessor) (f : FftImpl) (ns : List ℚ)
    (hc : p.fft_size ≤ (p.sample_buffer ++ ns).length) :
    ∃ rec : AudioAnalysisData,
      (p.process_samples f ns).2 = some rec ∧
      (∀ x ∈ (p.sample_buffer ++ ns).take p.fft_size, |x| ≤ rec.peak_amplitude) ∧
      (0 < p.fft_size →
        rec.peak_amplitude ∈
          ((p.sample_buffer ++ ns).take p.fft_size).map (fun s => |s|)) ∧
      rec.rms_sq =
        (((p.sample_buffer ++ ns).take p.fft_size).map (fun s => s * s)).sum /
          (p.fft_size : ℚ) ∧
      (∀ w : List ℚ,
        ∃ rec2 : AudioAnalysisData,
          (AudioProcessor.process_samples { p with window := w } f ns).2 =
              some rec2 ∧
            rec2.peak_amplitude = rec.peak_amplitude ∧
            rec2.rms_sq = rec.rms_sq) ∧
      ((p.sample_buffer ++ ns).take p.fft_size =
          List.replicate p.fft_size 0 →
        Real.sqrt (rec.rms_sq : ℝ) = 0) ∧
      (∀ A : ℚ, 0 ≤ A → 0 < p.fft_size →
        (p.sample_buffer ++ ns).take p.fft_size =
          List.replicate p.fft_size A →
        Real.sqrt (rec.rms_sq : ℝ) = (A : ℝ)) := by
  rw [p.process_samples_extract f ns hc]
  have hfold :
      ((p.sample_buffer ++ ns).take p.fft_size).foldl
          (fun m s => if m < |s| then |s| else m) 0 =
        (((p.sample_buffer ++ ns).take p.fft_size).map (fun s => |s|)).foldl
          max 0 := by
    rw [peak_foldl_eq_max_foldl, List.foldl_map]
  refine ⟨_, rfl, ?_, ?_, rfl, ?_, ?_, ?_⟩
  · intro x hx
    simp only [hfold]
    exact (foldl_max_bounds _ 0).2 |x| (List.mem_map_of_mem _ hx)
  · intro hN
    simp only [hfold]
    have hlen : ((p.sample_buffer ++ ns).take p.fft_size).length = p.fft_size := by
      rw [List.length_take]
      exact min_eq_left hc
    have hraw : ((p.sample_buffer ++ ns).take p.fft_size) ≠ [] := by
      intro hnil
      rw [hnil] at hlen
      simp at hlen
      omega
    rcases foldl_max_attained
        (((p.sample_buffer ++ ns).take p.fft_size).map (fun s => |s|)) 0 with
      h | h
    · exact h
    · rcases List.exists_mem_of_ne_nil _ hraw with ⟨x, hx⟩
      have hxm : |x| ∈ ((p.sample_buffer ++ ns).take p.fft_size).map
          (fun s => |s|) := List.mem_map_of_mem _ hx
      have hle : |x| ≤ 0 := h ▸ (foldl_max_bounds _ 0).2 |x| hxm
      have hx0 : |x| = (0 : ℚ) := le_antisymm hle (abs_nonneg x)
      rw [h, ← hx0]
      exact hxm
  · intro w
    rw [AudioProcessor.process_samples_extract _ f ns (by simpa using hc)]
    exact ⟨_, rfl, rfl, rfl⟩
  · intro hz
    simp only [hz, List.map_replicate, List.sum_replicate, nsmul_eq_mul,
      mul_zero, zero_div, Rat.cast_zero, Real.sqrt_zero]
  · intro A hA hN hconst
    have hcast : ((p.fft_size : ℚ)) ≠ 0 := Nat.cast_ne_zero.mpr hN.ne'
    have hsum :
        ((((p.sample_buffer ++ ns).take p.fft_size).map (fun s => s * s)).sum /
            (p.fft_size : ℚ)) = A * A := by
      rw [hconst, List.map_replicate, List.sum_replicate, nsmul_eq_mul]
      exact mul_div_cancel_left₀ (A * A) hcast
    rw [hsum]
    push_cast
    exact Real.sqrt_mul_self (by exact_mod_cast hA)

/-- Witness for C9: FFT size 2, raw window `[3, -4]` — the produced
record's peak bounds and attains the absolute values, its RMS square is
the mean square, and neither metric depends on the window vector. -/
theorem c9_peak_rms_raw_witness :
    ∃ rec : AudioAnalysisData,
      ((AudioProcessor.new 2 [1, 1]).process_samples idFft [3, -4]).2 = some rec ∧
      (∀ x ∈ ((AudioProcessor.new 2 [1, 1]).sample_buffer ++ [3, -4]).take
          (AudioProcessor.new 2 [1, 1]).fft_size, |x| ≤ rec.peak_amplitude) ∧
      (0 < (AudioProcessor.new 2 [1, 1]).fft_size →
        rec.peak_amplitude ∈
          (((AudioProcessor.new 2 [1, 1]).sample_buffer ++ [3, -4]).take
            (AudioProcessor.new 2 [1, 1]).fft_size).map (fun s => |s|)) ∧
      rec.rms_sq =
        ((((AudioProcessor.new 2 [1, 1]).sample_buffer ++ [3, -4]).take
            (AudioProcessor.new 2 [1, 1]).fft_size).map (fun s => s * s)).sum /
          ((AudioProcessor.new 2 [1, 1]).fft_size : ℚ) ∧
      (∀ w : List ℚ,
        ∃ rec2 : AudioAnalysisData,
          (AudioProcessor.process_samples
              { AudioProcessor.new 2 [1, 1] with window := w } idFft
              [3, -4]).2 = some rec2 ∧
            rec2.peak_amplitude = rec.peak_amplitude ∧
            rec2.rms_sq = rec.rms_sq) ∧
      (((AudioProcessor.new 2 [1, 1]).sample_buffer ++ [3, -4]).take
          (AudioProcessor.new 2 [1, 1]).fft_size =
          List.replicate (AudioProcessor.new 2 [1, 1]).fft_size 0 →
        Real.sqrt (rec.rms_sq : ℝ) = 0) ∧
      (∀ A : ℚ, 0 ≤ A → 0 < (AudioProcessor.new 2 [1, 1]).fft_size →
        ((AudioProcessor.new 2 [1, 1]).sample_buffer ++ [3, -4]).take
          (AudioProcessor.new 2 [1, 1]).fft_size =
          List.replicate (AudioProcessor.new 2 [1, 1]).fft_size A →
        Real.sqrt (rec.rms_sq : ℝ) = (A : ℝ)) :=
  c9_peak_rms_raw (AudioProcessor.new 2 [1, 1]) idFft [3, -4] (by decide)

/-- Witness for the amended C5: a whitespace path fails `InvalidInput`
with the playing engine untouched, while a failing file open on a valid
path leaves the torn-down `Idle` state with no sink. -/
theorem c5_load_amended_witness :
    mgrPlaying.load_and_play_file " "
        { open_ok := true, decode_ok := true, spawn_ok := true, sink_ok := true } =
      (mgrPlaying, some LoadError.InvalidInput) ∧
    ((mgrPlaying.load_and_play_file "b.mp3"
        { open_ok := false, decode_ok := true, spawn_ok := true, sink_ok := true }
      ).1.state = PlaybackState.Idle ∧
      (mgrPlaying.load_and_play_file "b.mp3"
        { open_ok := false, decode_ok := true, spawn_ok := true, sink_ok := true }
      ).1.state ≠ PlaybackState.Playing ∧
      (mgrPlaying.load_and_play_file "b.mp3"
        { open_ok := false, decode_ok := true, spawn_ok := true, sink_ok := true }
      ).1.sink = none) := by
  constructor
  · exact (c5_load_amended mgrPlaying " "
      { open_ok := true, decode_ok := true, spawn_ok := true,
        sink_ok := true }).1 (by decide)
  · exact (c5_load_amended mgrPlaying "b.mp3"
      { open_ok := false, decode_ok := true, spawn_ok := true,
        sink_ok := true }).2 (by decide) LoadError.IoError (by decide)
